import Mathlib

/-!
# Verification of the pplan SCD Type 2 version-chain and audit-logging engine

Shallow embedding of `audit-logger.ts` (together with the column layout of
`schema.ts`).  The repository ships the audit logger in two spellings that
differ only in the column naming convention (camelCase vs. the snake_case
spelling that matches `schema.ts`); both are the same program and are embedded
once here.  Conventions of the embedding:

* The database is an explicit state (`DBState`) holding the one versioned
  entity table under consideration, the `shift_assignments` table, the
  `shift_assignment_logs` table and the `audit_logs` table, each as the list
  of its rows in insertion order (`insert` appends at the end).
* `db.transaction` callbacks that `throw` roll back: operations return
  `Except String (DBState × result)`; the `…Run` wrappers keep the old state
  on error, which is exactly the rollback semantics.
* Timestamps are `Nat`; the `new Date()` taken by an operation is passed in
  as an explicit `now` argument, and the row id freshly generated by the
  store (`defaultRandom()`) is passed in as `newId`.
* Domain fields of a generic versioned row are an association list
  `List (String × String)`; the JS spread `{...current, ...updates}` becomes
  `updates ++ current.fields`, read through `List.lookup` (first binding
  wins, i.e. `updates` overlays `current`).
* JS `Array.prototype.sort` with comparator `(a, b) => b.k - a.k` is a stable
  descending sort; it is embedded as `List.insertionSort` with the relation
  `b.k ≤ a.k`, which is the same stable sort extensionally.
* The `while` loops of `getEntityHistory` / `getCurrentVersion` have no
  termination guard in the source; they are embedded fuel-indexed, and the
  history walk additionally reports whether the loop exited on its own
  (`true`) or only because the fuel ran out (`false`).
-/

/-- The `response_status` Postgres enum: `pending | accepted | declined`. -/
inductive RStatus where
  | pending
  | accepted
  | declined
deriving DecidableEq

/-- The wire string of a `response_status` value. -/
def RStatus.toStr : RStatus → String
  | .pending => "pending"
  | .accepted => "accepted"
  | .declined => "declined"

/-- A row of a generic versioned-entity table (the SCD Type 2 columns of
`schema.ts` plus the entity's domain fields as an association list). -/
structure Row where
  id : String
  organizationId : Option String
  fields : List (String × String)
  previousVersionId : Option String
  validFrom : Nat
  validTo : Option Nat
  isCurrent : Bool
  createdAt : Nat
  updatedAt : Nat
deriving DecidableEq

/-- A row of the `audit_logs` table. -/
structure AuditEntry where
  organizationId : Option String
  entityType : String
  entityId : String
  action : String
  performedBy : Option String
  performedByStaff : Option String
  oldValues : List (String × Option String)
  newValues : List (String × Option String)
  changedFields : List String
  ipAddress : Option String
  userAgent : Option String
  metadata : Option String
  createdAt : Nat
deriving DecidableEq

/-- A row of the `shift_assignments` table. -/
structure Assignment where
  id : String
  shiftId : String
  staffId : String
  roleId : Option String
  responseStatus : RStatus
  responseMessage : Option String
  invitedAt : Nat
  respondedAt : Option Nat
  emailSentAt : Option Nat
  createdAt : Nat
  updatedAt : Nat
deriving DecidableEq

/-- A row of the `shift_assignment_logs` table. -/
structure AssignLogRow where
  assignmentId : String
  previousStatus : Option RStatus
  newStatus : RStatus
  changedBy : Option String
  changedByStaff : Option String
  message : Option String
  metadata : Option String
  createdAt : Nat
deriving DecidableEq

/-- The database state visible to the audit logger. -/
structure DBState where
  table : List Row
  assignments : List Assignment
  assignmentLogs : List AssignLogRow
  auditLogs : List AuditEntry
deriving DecidableEq

/-- The closed table-name → entity-type mapping of `getEntityType`. -/
def entityTypeMapping : List (String × String) :=
  [("organizations", "organization"),
   ("users", "user"),
   ("roles", "role"),
   ("staff", "staff"),
   ("shifts", "shift"),
   ("shift_assignments", "shift_assignment")]

/-- `getEntityType`: look the table name up in the mapping, defaulting to
`'organization'` (`mapping[tableName] || 'organization'`). -/
def getEntityType (tableName : String) : String :=
  (entityTypeMapping.lookup tableName).getD "organization"

/-- Retiring a row (`update … set valid_to = now, is_current = false,
updated_at = now`). -/
def retireRow (now : Nat) (r : Row) : Row :=
  { r with validTo := some now, isCurrent := false, updatedAt := now }

/-- `createNewVersion`: inside one transaction, find the row with the given
id that `is_current`; fail if absent; retire it; insert the successor row
(copy of the current row overlaid with `updates`, fresh id, back-link,
`valid_from = now`, `valid_to = null`, `is_current = true`, original
`created_at`); append one `update` audit entry whose snapshots are
restricted to the keys of `updates`. -/
def createNewVersion (st : DBState) (tableName : String) (currentId : String)
    (updates : List (String × String))
    (performedBy performedByStaff ipAddress userAgent metadata : Option String)
    (newId : String) (now : Nat) : Except String (DBState × Row) :=
  match st.table.find? (fun r => r.id == currentId && r.isCurrent) with
  | none => .error "Current version not found"
  | some current =>
    let newVersion : Row :=
      { id := newId
        organizationId := current.organizationId
        fields := updates ++ current.fields
        previousVersionId := some currentId
        validFrom := now
        validTo := none
        isCurrent := true
        createdAt := current.createdAt
        updatedAt := now }
    let changedFields := updates.map Prod.fst
    let entry : AuditEntry :=
      { organizationId := current.organizationId
        entityType := getEntityType tableName
        entityId := newVersion.id
        action := "update"
        performedBy := performedBy
        performedByStaff := performedByStaff
        oldValues := changedFields.map fun f => (f, current.fields.lookup f)
        newValues := changedFields.map fun f => (f, updates.lookup f)
        changedFields := changedFields
        ipAddress := ipAddress
        userAgent := userAgent
        metadata := metadata
        createdAt := now }
    .ok ({ st with
            table := st.table.map
              (fun r => if r.id == currentId then retireRow now r else r) ++ [newVersion]
            auditLogs := st.auditLogs ++ [entry] },
         newVersion)

/-- `db.transaction` semantics around `createNewVersion`: a thrown error rolls
the state back, a success commits it. -/
def createNewVersionRun (st : DBState) (tableName : String) (currentId : String)
    (updates : List (String × String))
    (performedBy performedByStaff ipAddress userAgent metadata : Option String)
    (newId : String) (now : Nat) : DBState × Option Row :=
  match createNewVersion st tableName currentId updates performedBy performedByStaff
      ipAddress userAgent metadata newId now with
  | .ok (st', r) => (st', some r)
  | .error _ => (st, none)

/-- Point lookup `findFirst(where: eq(table.id, i))`. -/
def lookupRowById (tbl : List Row) (i : String) : Option Row :=
  tbl.find? (fun r => r.id == i)

/-- Predicate lookup `findFirst(where: eq(table.previous_version_id, i))`. -/
def lookupSuccessor (tbl : List Row) (i : String) : Option Row :=
  tbl.find? (fun r => r.previousVersionId == some i)

/-- The `while (currentId)` loop of `getEntityHistory`, fuel-indexed.
Returns the rows in visit order and `true` when the loop exited on its own
(null back-link or missing referenced row), `false` when the fuel ran out
while the source loop would still be running. -/
def historyWalk (tbl : List Row) : Nat → Option String → List Row × Bool
  | _, none => ([], true)
  | 0, some _ => ([], false)
  | fuel + 1, some cid =>
    match lookupRowById tbl cid with
    | none => ([], true)
    | some version =>
      let rest := historyWalk tbl fuel version.previousVersionId
      (version :: rest.1, rest.2)

/-- Descending `valid_from` order used by `getEntityHistory`'s final sort. -/
def validFromDesc (a b : Row) : Prop := b.validFrom ≤ a.validFrom

instance : DecidableRel validFromDesc := fun a b => Nat.decLe _ _

instance : IsTotal Row validFromDesc := ⟨fun a b => Nat.le_total b.validFrom a.validFrom⟩

instance : IsTrans Row validFromDesc := ⟨fun _ _ _ h1 h2 => Nat.le_trans h2 h1⟩

/-- `getEntityHistory`: walk `previous_version_id` backward from `entityId`,
then sort the visited rows by `valid_from` descending. -/
def getEntityHistory (tbl : List Row) (fuel : Nat) (entityId : String) : List Row :=
  List.insertionSort validFromDesc (historyWalk tbl fuel (some entityId)).1

/-- The `while (currentId)` loop of `getCurrentVersion`, fuel-indexed:
look the candidate up by id (missing → not-found); return it if
`is_current`; otherwise advance to the row referencing it as predecessor,
or return the candidate itself when no such successor exists. -/
def getCurrentVersionFuel (tbl : List Row) : Nat → String → Option Row
  | 0, _ => none
  | fuel + 1, cid =>
    match lookupRowById tbl cid with
    | none => none
    | some version =>
      if version.isCurrent then some version
      else
        match lookupSuccessor tbl cid with
        | none => some version
        | some newer => getCurrentVersionFuel tbl fuel newer.id

/-- Descending `created_at` order used by the audit-log reads. -/
def createdAtDesc (a b : AuditEntry) : Prop := b.createdAt ≤ a.createdAt

instance : DecidableRel createdAtDesc := fun a b => Nat.decLe _ _

/-- `getOrganizationAuditLogs`: filter by organization and the optional
`entityType` / `action` filters, newest first, capped at `limit`.
`startDate` and `endDate` are accepted but — exactly as in the source —
never added to `conditions`. -/
def getOrganizationAuditLogs (logs : List AuditEntry) (organizationId : String)
    (startDate endDate : Option Nat) (entityType : Option String)
    (action : Option String) (limit : Nat) : List AuditEntry :=
  let cond := fun (e : AuditEntry) =>
    e.organizationId == some organizationId
    && (match entityType with | some t => e.entityType == t | none => true)
    && (match action with | some a => e.action == a | none => true)
  ((logs.filter cond).insertionSort createdAtDesc).take limit

/-- `updateAssignmentStatus`: read the assignment (missing → error); if the
new status equals the current one return the row unchanged without opening a
transaction; otherwise, in one transaction, mutate the assignment row and
append one `shift_assignment_logs` row and one `status_change` audit entry.
A `none` message leaves `response_message` untouched (drizzle skips
`undefined` values in `set`). -/
def updateAssignmentStatus (st : DBState) (assignmentId : String) (newStatus : RStatus)
    (message changedBy changedByStaff metadata ipAddress userAgent : Option String)
    (now : Nat) : Except String (DBState × Assignment) :=
  match st.assignments.find? (fun a => a.id == assignmentId) with
  | none => .error "Assignment not found"
  | some currentAssignment =>
    let previousStatus := currentAssignment.responseStatus
    if previousStatus = newStatus then
      .ok (st, currentAssignment)
    else
      let updatedOf : Assignment → Assignment := fun a =>
        { a with
            responseStatus := newStatus
            responseMessage := match message with
              | some m => some m
              | none => a.responseMessage
            respondedAt := some now
            updatedAt := now }
      let logRow : AssignLogRow :=
        { assignmentId := assignmentId
          previousStatus := some previousStatus
          newStatus := newStatus
          changedBy := changedBy
          changedByStaff := changedByStaff
          message := message
          metadata := metadata
          createdAt := now }
      let auditRow : AuditEntry :=
        { organizationId := none
          entityType := "shift_assignment"
          entityId := assignmentId
          action := "status_change"
          performedBy := changedBy
          performedByStaff := changedByStaff
          oldValues := [("response_status", some previousStatus.toStr)]
          newValues := [("response_status", some newStatus.toStr)]
          changedFields := ["response_status"]
          ipAddress := ipAddress
          userAgent := userAgent
          metadata := metadata
          createdAt := now }
      .ok ({ st with
              assignments := st.assignments.map
                (fun a => if a.id == assignmentId then updatedOf a else a)
              assignmentLogs := st.assignmentLogs ++ [logRow]
              auditLogs := st.auditLogs ++ [auditRow] },
           updatedOf currentAssignment)

/-- The `{id, name, email}` projection of a related user / staff row, as
joined by `getAssignmentHistory`. -/
structure NamedRef where
  id : String
  name : String
  email : String
deriving DecidableEq

/-- One `shift_assignment_logs` row with its `changedByUser` /
`changedByStaffMember` relations resolved, as `formatAssignmentHistory`
receives it. -/
structure HistoryEntry where
  assignmentId : String
  previousStatus : Option RStatus
  newStatus : RStatus
  message : Option String
  createdAt : Nat
  changedByUser : Option NamedRef
  changedByStaffMember : Option NamedRef
deriving DecidableEq

/-- The line `formatAssignmentHistory` builds for one log entry.  The
timestamp renderer (`toLocaleString('de-DE')`, an environment service) is
passed in as `fmtTime`.  JS truthiness: an empty-string message is falsy,
so it adds no suffix. -/
def formatEntry (fmtTime : Nat → String) (log : HistoryEntry) : String :=
  let actor : String :=
    match log.changedByUser with
    | some u => "Manager " ++ u.name
    | none =>
      match log.changedByStaffMember with
      | some s => "Staff " ++ s.name
      | none => "System"
  let statusChange : String :=
    match log.previousStatus with
    | some p => p.toStr ++ " → " ++ log.newStatus.toStr
    | none => "Status gesetzt: " ++ log.newStatus.toStr
  let line := "[" ++ fmtTime log.createdAt ++ "] " ++ actor ++ ": " ++ statusChange
  match log.message with
  | some m => if m = "" then line else line ++ " - \"" ++ m ++ "\""
  | none => line

/-- `formatAssignmentHistory`: one rendered line per log entry. -/
def formatAssignmentHistory (fmtTime : Nat → String) (logs : List HistoryEntry) :
    List String :=
  logs.map (formatEntry fmtTime)

/-- The per-entry line format exactly as the specification's template reads
it: the actor label is the bare display name (or `System`), the null-previous
transition reads `Status set: <new>`, and the quoted message suffix is always
present, carrying the entry's message. -/
def formatEntrySpecTemplate (fmtTime : Nat → String) (log : HistoryEntry) : String :=
  let actor : String :=
    match log.changedByUser with
    | some u => u.name
    | none =>
      match log.changedByStaffMember with
      | some s => s.name
      | none => "System"
  let statusChange : String :=
    match log.previousStatus with
    | some p => p.toStr ++ " → " ++ log.newStatus.toStr
    | none => "Status set: " ++ log.newStatus.toStr
  "[" ++ fmtTime log.createdAt ++ "] " ++ actor ++ ": " ++ statusChange
    ++ " - \"" ++ (log.message.getD "") ++ "\""

/-! ## Concrete fixtures -/

/-- An already-retired staff row: `is_current = false`, non-null `valid_to`. -/
def retiredFixture : Row :=
  { id := "a", organizationId := some "org", fields := [("name", "John")],
    previousVersionId := none, validFrom := 1, validTo := some 2,
    isCurrent := false, createdAt := 1, updatedAt := 2 }

/-- A store whose only staff row is already retired. -/
def stRetired : DBState :=
  { table := [retiredFixture], assignments := [], assignmentLogs := [], auditLogs := [] }

/-- A current `staff_addresses` row (that table carries no organization id). -/
def addressFixture : Row :=
  { id := "a0", organizationId := none,
    fields := [("city", "Hamburg"), ("street", "Main")],
    previousVersionId := none, validFrom := 1, validTo := none,
    isCurrent := true, createdAt := 1, updatedAt := 1 }

/-- A store holding only `addressFixture`, with an empty audit log. -/
def stAddress : DBState :=
  { table := [addressFixture], assignments := [], assignmentLogs := [], auditLogs := [] }

/-- A pending assignment. -/
def pendingAssignment : Assignment :=
  { id := "as1", shiftId := "sh1", staffId := "stf1", roleId := none,
    responseStatus := .pending, responseMessage := none, invitedAt := 1,
    respondedAt := none, emailSentAt := none, createdAt := 1, updatedAt := 1 }

/-- A store holding only `pendingAssignment`. -/
def stAssign : DBState :=
  { table := [], assignments := [pendingAssignment], assignmentLogs := [], auditLogs := [] }

/-- An audit entry of organization `org` created at instant 5. -/
def auditAt5 : AuditEntry :=
  { organizationId := some "org", entityType := "staff", entityId := "s1",
    action := "update", performedBy := none, performedByStaff := none,
    oldValues := [], newValues := [], changedFields := [],
    ipAddress := none, userAgent := none, metadata := none, createdAt := 5 }

/-- Cyclic-chain row `a`, whose back-link points at `b`. -/
def cycRowA : Row :=
  { id := "a", organizationId := none, fields := [], previousVersionId := some "b",
    validFrom := 1, validTo := none, isCurrent := true, createdAt := 1, updatedAt := 1 }

/-- Cyclic-chain row `b`, whose back-link points back at `a`. -/
def cycRowB : Row :=
  { id := "b", organizationId := none, fields := [], previousVersionId := some "a",
    validFrom := 2, validTo := none, isCurrent := false, createdAt := 1, updatedAt := 1 }

/-- A corrupted table whose `previous_version_id` edges form the 2-cycle
`a → b → a`. -/
def cycTable : List Row := [cycRowA, cycRowB]

/-! ## Theorems -/

/-- C2: when no row with the given id is current (absent or already
retired), `createNewVersion` throws the not-found error, and the
transaction wrapper leaves the state exactly unchanged — no retirement, no
inserted row, no audit entry. -/
theorem createNewVersion_notFound (st : DBState) (tableName currentId : String)
    (updates : List (String × String))
    (pb pbs ip ua md : Option String) (newId : String) (now : Nat)
    (h : st.table.find? (fun r => r.id == currentId && r.isCurrent) = none) :
    createNewVersion st tableName currentId updates pb pbs ip ua md newId now
      = .error "Current version not found"
    ∧ createNewVersionRun st tableName currentId updates pb pbs ip ua md newId now
      = (st, none) := by
  constructor
  · simp [createNewVersion, h]
  · simp [createNewVersionRun, createNewVersion, h]

/-- Witness for C2: a store whose only row is retired; the call fails and
returns the store unchanged. -/
theorem createNewVersion_notFound_witness :
    createNewVersionRun stRetired "staff" "a" [("name", "Jane")]
      none none none none none "b" 5 = (stRetired, none) :=
  (createNewVersion_notFound stRetired "staff" "a" [("name", "Jane")]
      none none none none none "b" 5 (by decide)).2

/-- C5: when the assignment exists and the requested status equals its
current `response_status`, `updateAssignmentStatus` returns the unchanged
row with the state exactly as before — zero writes, zero status-log rows,
zero audit rows — so repeating the call is idempotent. -/
theorem updateAssignmentStatus_noop (st : DBState) (assignmentId : String)
    (newStatus : RStatus)
    (message changedBy changedByStaff metadata ipAddress userAgent : Option String)
    (now : Nat) (a : Assignment)
    (hfind : st.assignments.find? (fun x => x.id == assignmentId) = some a)
    (hstat : a.responseStatus = newStatus) :
    updateAssignmentStatus st assignmentId newStatus message changedBy changedByStaff
      metadata ipAddress userAgent now = .ok (st, a) := by
  simp [updateAssignmentStatus, hfind, hstat]

/-- Witness for C5: re-sending `pending` to a pending assignment returns it
unchanged with the store untouched. -/
theorem updateAssignmentStatus_noop_witness :
    updateAssignmentStatus stAssign "as1" .pending (some "hi") none none none none none 9
      = .ok (stAssign, pendingAssignment) :=
  updateAssignmentStatus_noop stAssign "as1" .pending (some "hi") none none none none none 9
    pendingAssignment (by decide) rfl

/-- C8 (failing input): `getOrganizationAuditLogs` never applies the
supplied date range — an entry created at instant 5 is returned unchanged
by a query restricted to `[10, 20]`. -/
theorem getOrganizationAuditLogs_ignores_dateRange :
    getOrganizationAuditLogs [auditAt5] "org" (some 10) (some 20) none none 100
      = [auditAt5] := by
  decide

/-- On the 2-cycle, from either node, every amount of fuel is consumed
without the loop ever reaching an exit condition. -/
theorem historyWalk_cyc_aux : ∀ fuel : Nat,
    ((historyWalk cycTable fuel (some "a")).2 = false
      ∧ (historyWalk cycTable fuel (some "a")).1.length = fuel)
    ∧ ((historyWalk cycTable fuel (some "b")).2 = false
      ∧ (historyWalk cycTable fuel (some "b")).1.length = fuel) := by
  intro fuel
  induction fuel with
  | zero => exact ⟨⟨rfl, rfl⟩, ⟨rfl, rfl⟩⟩
  | succ n ih =>
    have stepA : historyWalk cycTable (n + 1) (some "a")
        = (cycRowA :: (historyWalk cycTable n (some "b")).1,
           (historyWalk cycTable n (some "b")).2) := rfl
    have stepB : historyWalk cycTable (n + 1) (some "b")
        = (cycRowB :: (historyWalk cycTable n (some "a")).1,
           (historyWalk cycTable n (some "a")).2) := rfl
    refine ⟨⟨?_, ?_⟩, ⟨?_, ?_⟩⟩
    · rw [stepA]; exact ih.2.1
    · rw [stepA]; simpa using ih.2.2
    · rw [stepB]; exact ih.1.1
    · rw [stepB]; simpa using ih.1.2

/-- C6 (failing input): on the corrupted 2-cycle `a → b → a` the source's
backward walk never reaches any of its exit conditions — for every fuel
bound the loop is still running (`false`) and has visited as many rows as
the bound allows, so the unguarded source loop runs forever. -/
theorem getEntityHistory_diverges_on_cycle : ∀ fuel : Nat,
    (historyWalk cycTable fuel (some "a")).2 = false
    ∧ (historyWalk cycTable fuel (some "a")).1.length = fuel :=
  fun fuel => (historyWalk_cyc_aux fuel).1

/-- C10: the table-name → entity-type mapping is open at its fallback —
every name outside the six registered ones maps to `organization`; as a
consequence `createNewVersion` on the unregistered `staff_addresses` table
succeeds and files its audit entry under entity type `organization`. -/
theorem getEntityType_open_fallback :
    (∀ t : String,
        t ∉ ["organizations", "users", "roles", "staff", "shifts", "shift_assignments"] →
        getEntityType t = "organization")
    ∧ (createNewVersionRun stAddress "staff_addresses" "a0" [("city", "Berlin")]
        none none none none none "a1" 7).2.isSome = true
    ∧ ((createNewVersionRun stAddress "staff_addresses" "a0" [("city", "Berlin")]
        none none none none none "a1" 7).1.auditLogs.map AuditEntry.entityType)
      = ["organization"] := by
  refine ⟨?_, by decide, by decide⟩
  intro t ht
  simp only [List.mem_cons, List.not_mem_nil, or_false, not_or] at ht
  obtain ⟨h1, h2, h3, h4, h5, h6⟩ := ht
  have b1 : (t == "organizations") = false := beq_eq_false_iff_ne.mpr h1
  have b2 : (t == "users") = false := beq_eq_false_iff_ne.mpr h2
  have b3 : (t == "roles") = false := beq_eq_false_iff_ne.mpr h3
  have b4 : (t == "staff") = false := beq_eq_false_iff_ne.mpr h4
  have b5 : (t == "shifts") = false := beq_eq_false_iff_ne.mpr h5
  have b6 : (t == "shift_assignments") = false := beq_eq_false_iff_ne.mpr h6
  simp [getEntityType, entityTypeMapping, List.lookup, b1, b2, b3, b4, b5, b6]

/-- Witness for C10: `staff_addresses` is not one of the six registered
table names, and it maps to `organization`. -/
theorem getEntityType_open_fallback_witness :
    getEntityType "staff_addresses" = "organization" :=
  getEntityType_open_fallback.1 "staff_addresses" (by decide)

/-- `List.lookup` on an appended association list: the left list overlays
the right one, which is how the embedding reads the JS object spread
`{...current, ...updates}`. -/
theorem lookup_append_overlay {β : Type} (l₁ l₂ : List (String × β)) (k : String) :
    (l₁ ++ l₂).lookup k = (l₁.lookup k <|> l₂.lookup k) := by
  induction l₁ with
  | nil => simp [List.lookup]
  | cons p t ih =>
    obtain ⟨a, b⟩ := p
    cases hk : k == a <;> simp [List.lookup, hk, ih]

/-- C1: a successful `createNewVersion` retires the matched current row
(`valid_to = now`, `is_current = false`) in place and appends exactly one
new row: it copies every field of the retired row overlaid with `updates`,
carries the fresh id, back-links to `currentId`, has `valid_from = now`,
`valid_to = null`, `is_current = true`, and the retired row's original
`created_at`; and it appends exactly one audit entry with action `update`,
entity id equal to the new row's id, changed-field list equal to the keys
of `updates`, and old/new snapshots restricted to exactly those keys (old
values from the retired row, new values from `updates`). -/
theorem createNewVersion_spec (st : DBState) (tableName currentId : String)
    (updates : List (String × String)) (pb pbs ip ua md : Option String)
    (newId : String) (now : Nat) (cur : Row)
    (h : st.table.find? (fun r => r.id == currentId && r.isCurrent) = some cur) :
    ∃ nv entry,
      createNewVersion st tableName currentId updates pb pbs ip ua md newId now
        = .ok ({ st with
                  table := st.table.map
                    (fun r => if r.id == currentId then retireRow now r else r) ++ [nv]
                  auditLogs := st.auditLogs ++ [entry] }, nv)
      ∧ (retireRow now cur).validTo = some now
      ∧ (retireRow now cur).isCurrent = false
      ∧ nv.id = newId
      ∧ nv.previousVersionId = some currentId
      ∧ nv.validFrom = now
      ∧ nv.validTo = none
      ∧ nv.isCurrent = true
      ∧ nv.createdAt = cur.createdAt
      ∧ (∀ k, nv.fields.lookup k = (updates.lookup k <|> cur.fields.lookup k))
      ∧ entry.action = "update"
      ∧ entry.entityId = nv.id
      ∧ entry.entityType = getEntityType tableName
      ∧ entry.changedFields = updates.map Prod.fst
      ∧ entry.oldValues = (updates.map Prod.fst).map (fun f => (f, cur.fields.lookup f))
      ∧ entry.newValues = (updates.map Prod.fst).map (fun f => (f, updates.lookup f)) := by
  refine ⟨{ id := newId, organizationId := cur.organizationId,
            fields := updates ++ cur.fields, previousVersionId := some currentId,
            validFrom := now, validTo := none, isCurrent := true,
            createdAt := cur.createdAt, updatedAt := now },
          { organizationId := cur.organizationId, entityType := getEntityType tableName,
            entityId := newId, action := "update", performedBy := pb,
            performedByStaff := pbs,
            oldValues := (updates.map Prod.fst).map (fun f => (f, cur.fields.lookup f)),
            newValues := (updates.map Prod.fst).map (fun f => (f, updates.lookup f)),
            changedFields := updates.map Prod.fst, ipAddress := ip, userAgent := ua,
            metadata := md, createdAt := now },
          ?_, rfl, rfl, rfl, rfl, rfl, rfl, rfl, rfl,
          fun k => lookup_append_overlay updates cur.fields k,
          rfl, rfl, rfl, rfl, rfl, rfl⟩
  simp [createNewVersion, h]

/-- C4: a non-no-op `updateAssignmentStatus` commits, in one transition, the
status mutation of the assignment row together with exactly one
assignment-status-log row (previous status, new status, actor, message) and
exactly one audit entry with action `status_change`, snapshots
`{response_status: previous}` / `{response_status: new}` and changed-field
list `["response_status"]`; both appended rows reference the same
assignment id and the same actor. -/
theorem updateAssignmentStatus_spec (st : DBState) (assignmentId : String)
    (newStatus : RStatus)
    (message changedBy changedByStaff metadata ipAddress userAgent : Option String)
    (now : Nat) (a : Assignment)
    (hfind : st.assignments.find? (fun x => x.id == assignmentId) = some a)
    (hne : a.responseStatus ≠ newStatus) :
    ∃ logRow auditRow,
      updateAssignmentStatus st assignmentId newStatus message changedBy changedByStaff
          metadata ipAddress userAgent now
        = .ok ({ st with
                  assignments := st.assignments.map (fun x =>
                    if x.id == assignmentId then
                      { x with
                          responseStatus := newStatus
                          responseMessage := match message with
                            | some m => some m
                            | none => x.responseMessage
                          respondedAt := some now
                          updatedAt := now }
                    else x)
                  assignmentLogs := st.assignmentLogs ++ [logRow]
                  auditLogs := st.auditLogs ++ [auditRow] },
               { a with
                   responseStatus := newStatus
                   responseMessage := match message with
                     | some m => some m
                     | none => a.responseMessage
                   respondedAt := some now
                   updatedAt := now })
      ∧ logRow = { assignmentId := assignmentId, previousStatus := some a.responseStatus,
                   newStatus := newStatus, changedBy := changedBy,
                   changedByStaff := changedByStaff, message := message,
                   metadata := metadata, createdAt := now }
      ∧ auditRow.action = "status_change"
      ∧ auditRow.entityType = "shift_assignment"
      ∧ auditRow.entityId = assignmentId
      ∧ auditRow.oldValues = [("response_status", some a.responseStatus.toStr)]
      ∧ auditRow.newValues = [("response_status", some newStatus.toStr)]
      ∧ auditRow.changedFields = ["response_status"]
      ∧ logRow.assignmentId = auditRow.entityId
      ∧ logRow.changedBy = auditRow.performedBy
      ∧ logRow.changedByStaff = auditRow.performedByStaff := by
  refine ⟨{ assignmentId := assignmentId, previousStatus := some a.responseStatus,
            newStatus := newStatus, changedBy := changedBy,
            changedByStaff := changedByStaff, message := message,
            metadata := metadata, createdAt := now },
          { organizationId := none, entityType := "shift_assignment",
            entityId := assignmentId, action := "status_change",
            performedBy := changedBy, performedByStaff := changedByStaff,
            oldValues := [("response_status", some a.responseStatus.toStr)],
            newValues := [("response_status", some newStatus.toStr)],
            changedFields := ["response_status"], ipAddress := ipAddress,
            userAgent := userAgent, metadata := metadata, createdAt := now },
          ?_, rfl, rfl, rfl, rfl, rfl, rfl, rfl, rfl, rfl, rfl⟩
  simp [updateAssignmentStatus, hfind, hne]

/-- A current staff row named John, the start of the spec's concrete
scenario. -/
def johnRow : Row :=
  { id := "A", organizationId := some "org",
    fields := [("name", "John Smith"), ("email", "john@x")],
    previousVersionId := none, validFrom := 1, validTo := none,
    isCurrent := true, createdAt := 1, updatedAt := 1 }

/-- A store holding only `johnRow`, with an empty audit log. -/
def stJohn : DBState :=
  { table := [johnRow], assignments := [], assignmentLogs := [], auditLogs := [] }

/-- Witness for C1: renaming John to Jane Doe retires row `A` and splices in
the new current version with the promised audit entry. -/
theorem createNewVersion_spec_witness :
    ∃ nv entry,
      createNewVersion stJohn "staff" "A" [("name", "Jane Doe")]
          none none none none none "B" 10
        = .ok ({ stJohn with
                  table := stJohn.table.map
                    (fun r => if r.id == "A" then retireRow 10 r else r) ++ [nv]
                  auditLogs := stJohn.auditLogs ++ [entry] }, nv)
      ∧ (retireRow 10 johnRow).validTo = some 10
      ∧ (retireRow 10 johnRow).isCurrent = false
      ∧ nv.id = "B"
      ∧ nv.previousVersionId = some "A"
      ∧ nv.validFrom = 10
      ∧ nv.validTo = none
      ∧ nv.isCurrent = true
      ∧ nv.createdAt = johnRow.createdAt
      ∧ (∀ k, nv.fields.lookup k
          = ([("name", "Jane Doe")].lookup k <|> johnRow.fields.lookup k))
      ∧ entry.action = "update"
      ∧ entry.entityId = nv.id
      ∧ entry.entityType = getEntityType "staff"
      ∧ entry.changedFields = [("name", "Jane Doe")].map Prod.fst
      ∧ entry.oldValues
          = ([("name", "Jane Doe")].map Prod.fst).map
              (fun f => (f, johnRow.fields.lookup f))
      ∧ entry.newValues
          = ([("name", "Jane Doe")].map Prod.fst).map
              (fun f => (f, [("name", "Jane Doe")].lookup f)) :=
  createNewVersion_spec stJohn "staff" "A" [("name", "Jane Doe")]
    none none none none none "B" 10 johnRow (by decide)

/-- Witness for C4: accepting a pending assignment with message
`Available!` produces the status mutation, the status-log row and the
`status_change` audit row in one step. -/
theorem updateAssignmentStatus_spec_witness :
    ∃ logRow auditRow,
      updateAssignmentStatus stAssign "as1" .accepted (some "Available!")
          (some "mgr") none none none none 20
        = .ok ({ stAssign with
                  assignments := stAssign.assignments.map (fun x =>
                    if x.id == "as1" then
                      { x with
                          responseStatus := RStatus.accepted
                          responseMessage := match some "Available!" with
                            | some m => some m
                            | none => x.responseMessage
                          respondedAt := some 20
                          updatedAt := 20 }
                    else x)
                  assignmentLogs := stAssign.assignmentLogs ++ [logRow]
                  auditLogs := stAssign.auditLogs ++ [auditRow] },
               { pendingAssignment with
                   responseStatus := RStatus.accepted
                   responseMessage := match some "Available!" with
                     | some m => some m
                     | none => pendingAssignment.responseMessage
                   respondedAt := some 20
                   updatedAt := 20 })
      ∧ logRow = { assignmentId := "as1",
                   previousStatus := some pendingAssignment.responseStatus,
                   newStatus := RStatus.accepted, changedBy := some "mgr",
                   changedByStaff := none, message := some "Available!",
                   metadata := none, createdAt := 20 }
      ∧ auditRow.action = "status_change"
      ∧ auditRow.entityType = "shift_assignment"
      ∧ auditRow.entityId = "as1"
      ∧ auditRow.oldValues
          = [("response_status", some pendingAssignment.responseStatus.toStr)]
      ∧ auditRow.newValues = [("response_status", some (RStatus.accepted).toStr)]
      ∧ auditRow.changedFields = ["response_status"]
      ∧ logRow.assignmentId = auditRow.entityId
      ∧ logRow.changedBy = auditRow.performedBy
      ∧ logRow.changedByStaff = auditRow.performedByStaff :=
  updateAssignmentStatus_spec stAssign "as1" .accepted (some "Available!")
    (some "mgr") none none none none 20 pendingAssignment (by decide) (by decide)

/-- A history entry resolved to user Jane, with no previous status and no
message. -/
def janeEntry : HistoryEntry :=
  { assignmentId := "as1", previousStatus := none, newStatus := .accepted,
    message := none, createdAt := 3,
    changedByUser := some { id := "u1", name := "Jane", email := "jane@x" },
    changedByStaffMember := none }

/-- C9 counterexample: the rendered line is not the one the claim's template
prescribes — the actor label is `Manager Jane` rather than the bare display
name, the null-previous transition reads `Status gesetzt:` rather than
`Status set:`, and an entry without a message gets no quoted suffix. -/
theorem formatAssignmentHistory_not_spec_template :
    formatAssignmentHistory (fun _ => "T") [janeEntry]
      = ["[T] Manager Jane: Status gesetzt: accepted"]
    ∧ formatEntrySpecTemplate (fun _ => "T") janeEntry
      = "[T] Jane: Status set: accepted - \"\""
    ∧ formatAssignmentHistory (fun _ => "T") [janeEntry]
      ≠ [formatEntrySpecTemplate (fun _ => "T") janeEntry] := by
  refine ⟨rfl, rfl, ?_⟩
  decide

/-- C9 amended: `formatAssignmentHistory` renders exactly one line per
entry, of the form `[timestamp] <actor>: <transition><suffix>` where the
actor is `Manager <user name>` when a user is resolved, else
`Staff <staff name>` when a staff member is resolved, else `System`; the
transition reads `<previous> → <new>` when the previous status is non-null
and `Status gesetzt: <new>` otherwise; and the suffix ` - "<message>"` is
present exactly when the entry carries a non-empty message. -/
theorem formatAssignmentHistory_lines (fmtTime : Nat → String) :
    formatAssignmentHistory fmtTime [] = []
    ∧ ∀ (e : HistoryEntry) (rest : List HistoryEntry),
        formatAssignmentHistory fmtTime (e :: rest)
          = (match e.message with
             | some m =>
               if m = "" then
                 "[" ++ fmtTime e.createdAt ++ "] "
                   ++ (match e.changedByUser with
                       | some u => "Manager " ++ u.name
                       | none =>
                         match e.changedByStaffMember with
                         | some s => "Staff " ++ s.name
                         | none => "System")
                   ++ ": "
                   ++ (match e.previousStatus with
                       | some p => p.toStr ++ " → " ++ e.newStatus.toStr
                       | none => "Status gesetzt: " ++ e.newStatus.toStr)
               else
                 "[" ++ fmtTime e.createdAt ++ "] "
                   ++ (match e.changedByUser with
                       | some u => "Manager " ++ u.name
                       | none =>
                         match e.changedByStaffMember with
                         | some s => "Staff " ++ s.name
                         | none => "System")
                   ++ ": "
                   ++ (match e.previousStatus with
                       | some p => p.toStr ++ " → " ++ e.newStatus.toStr
                       | none => "Status gesetzt: " ++ e.newStatus.toStr)
                   ++ " - \"" ++ m ++ "\""
             | none =>
               "[" ++ fmtTime e.createdAt ++ "] "
                 ++ (match e.changedByUser with
                     | some u => "Manager " ++ u.name
                     | none =>
                       match e.changedByStaffMember with
                       | some s => "Staff " ++ s.name
                       | none => "System")
                 ++ ": "
                 ++ (match e.previousStatus with
                     | some p => p.toStr ++ " → " ++ e.newStatus.toStr
                     | none => "Status gesetzt: " ++ e.newStatus.toStr))
            :: formatAssignmentHistory fmtTime rest :=
  ⟨rfl, fun _ _ => rfl⟩

/-- `find?` returns the element at the first position whose predicate
holds. -/
theorem find?_eq_get_of_first {α : Type} (pr : α → Bool) (l : List α) (m : Nat)
    (hm : m < l.length)
    (htrue : pr (l.get ⟨m, hm⟩) = true)
    (hfalse : ∀ j (hj : j < m), pr (l.get ⟨j, Nat.lt_trans hj hm⟩) = false) :
    l.find? pr = some (l.get ⟨m, hm⟩) := by
  induction l generalizing m with
  | nil => exact absurd hm (Nat.not_lt_zero m)
  | cons a t ih =>
    cases m with
    | zero => exact List.find?_cons_of_pos _ htrue
    | succ n =>
      have ha : pr a = false := hfalse 0 (Nat.succ_pos n)
      rw [List.find?_cons_of_neg _ (by simp [ha])]
      exact ih n (Nat.lt_of_succ_lt_succ hm) htrue
        (fun j hj => hfalse (j + 1) (Nat.succ_lt_succ hj))

/-- In a table with distinct ids, positions are determined by ids. -/
theorem id_inj (chain : List Row) (hnod : (chain.map Row.id).Nodup)
    {i j : Nat} (hi : i < chain.length) (hj : j < chain.length)
    (h : (chain.get ⟨i, hi⟩).id = (chain.get ⟨j, hj⟩).id) : i = j := by
  have him : i < (chain.map Row.id).length := by simpa using hi
  have hjm : j < (chain.map Row.id).length := by simpa using hj
  have hmap : (chain.map Row.id)[i] = (chain.map Row.id)[j] := by
    simpa [List.getElem_map, List.get_eq_getElem] using h
  exact hnod.getElem_inj_iff.mp hmap

/-- In a table with distinct ids, the point lookup of the id of the row at
position `k` returns exactly that row. -/
theorem lookupRowById_get (chain : List Row) (hnod : (chain.map Row.id).Nodup)
    (k : Nat) (hk : k < chain.length) :
    lookupRowById chain ((chain.get ⟨k, hk⟩).id) = some (chain.get ⟨k, hk⟩) := by
  apply find?_eq_get_of_first
  · simp
  · intro j hj
    refine beq_eq_false_iff_ne.mpr (fun he => ?_)
    exact absurd (id_inj chain hnod (Nat.lt_trans hj hk) hk he) (Nat.ne_of_lt hj)

/-- The `previous_version_id` links of a lineage listed root-first: each
row's back-link is the id of its list predecessor, the root's back-link
being `p`. -/
def linkedFrom : Option String → List Row → Bool
  | _, [] => true
  | p, r :: rs => (r.previousVersionId == p) && linkedFrom (some r.id) rs

/-- Invariant I1 for one lineage listed root-first: the `previous_version_id`
edges form the simple path from the root (null back-link) and all version
ids are distinct. -/
def IsLineage (chain : List Row) : Prop :=
  linkedFrom none chain = true ∧ (chain.map Row.id).Nodup

instance (chain : List Row) : Decidable (IsLineage chain) :=
  inferInstanceAs (Decidable (linkedFrom none chain = true ∧ (chain.map Row.id).Nodup))

/-- The root of a linked chain carries the incoming back-link. -/
theorem linkedFrom_zero (p : Option String) (chain : List Row)
    (h : linkedFrom p chain = true) (h0 : 0 < chain.length) :
    (chain.get ⟨0, h0⟩).previousVersionId = p := by
  cases chain with
  | nil => exact absurd h0 (by simp)
  | cons r rs =>
    simp only [linkedFrom, Bool.and_eq_true, beq_iff_eq] at h
    exact h.1

/-- Every non-root row of a linked chain back-links to the id of its list
predecessor. -/
theorem linkedFrom_succ (p : Option String) (chain : List Row)
    (h : linkedFrom p chain = true) :
    ∀ (i : Nat) (hi : i + 1 < chain.length),
      (chain.get ⟨i + 1, hi⟩).previousVersionId
        = some ((chain.get ⟨i, Nat.lt_of_succ_lt hi⟩).id) := by
  induction chain generalizing p with
  | nil => intro i hi; exact absurd hi (by simp)
  | cons r rs ih =>
    intro i hi
    simp only [linkedFrom, Bool.and_eq_true, beq_iff_eq] at h
    cases i with
    | zero => exact linkedFrom_zero (some r.id) rs h.2 (Nat.lt_of_succ_lt_succ hi)
    | succ n => exact ih (some r.id) h.2 n (Nat.lt_of_succ_lt_succ hi)

/-- Reversed `take` peels off its newest element. -/
theorem take_succ_reverse (chain : List Row) (k : Nat) (hk : k < chain.length) :
    (chain.take (k + 1)).reverse = chain.get ⟨k, hk⟩ :: (chain.take k).reverse := by
  rw [List.take_succ]
  have hx : chain[k]? = some (chain.get ⟨k, hk⟩) := by
    rw [List.getElem?_eq_getElem hk]
    simp [List.get_eq_getElem]
  simp [hx]

/-- On an I1 lineage the source's backward walk, started at position `k`,
terminates on its own and visits exactly the rows at positions `k, k-1, …, 0`. -/
theorem historyWalk_lineage (chain : List Row) (hlin : IsLineage chain) :
    ∀ (k : Nat) (hk : k < chain.length) (fuel : Nat), k + 1 ≤ fuel →
      historyWalk chain fuel (some ((chain.get ⟨k, hk⟩).id))
        = ((chain.take (k + 1)).reverse, true) := by
  obtain ⟨hlink, hnod⟩ := hlin
  intro k
  induction k with
  | zero =>
    intro hk fuel hfuel
    cases fuel with
    | zero => exact absurd hfuel (by omega)
    | succ f =>
      have hl := lookupRowById_get chain hnod 0 hk
      have hp := linkedFrom_zero none chain hlink hk
      simp only [historyWalk, hl, hp]
      rw [take_succ_reverse chain 0 hk]
      simp
  | succ n ihn =>
    intro hk fuel hfuel
    cases fuel with
    | zero => exact absurd hfuel (by omega)
    | succ f =>
      have hl := lookupRowById_get chain hnod (n + 1) hk
      have hp := linkedFrom_succ none chain hlink n hk
      have hrec := ihn (Nat.lt_of_succ_lt hk) f (by omega)
      simp only [historyWalk, hl, hp, hrec]
      rw [take_succ_reverse chain (n + 1) hk]

/-- Root row `A` of a two-version lineage (`previous_version_id = null`,
already retired). -/
def lineRowA : Row :=
  { id := "A", organizationId := some "org", fields := [("name", "John")],
    previousVersionId := none, validFrom := 1, validTo := some 2,
    isCurrent := false, createdAt := 1, updatedAt := 2 }

/-- Head row `B` of the two-version lineage (back-links to `A`, current). -/
def lineRowB : Row :=
  { id := "B", organizationId := some "org", fields := [("name", "Jane")],
    previousVersionId := some "A", validFrom := 2, validTo := none,
    isCurrent := true, createdAt := 1, updatedAt := 2 }

/-- The two-version lineage `A ← B` as a table. -/
def lineTable : List Row := [lineRowA, lineRowB]

/-- C3 counterexample: `lineTable` satisfies invariant I1, yet
`getEntityHistory` started from node `A` returns only `[A]` — the later
version `B`, although part of the lineage, is not reachable by the
backward walk, so the history is not the whole lineage. -/
theorem getEntityHistory_from_root_incomplete :
    IsLineage lineTable
    ∧ getEntityHistory lineTable 10 "A" = [lineRowA]
    ∧ lineRowB ∈ lineTable
    ∧ lineRowB ∉ getEntityHistory lineTable 10 "A" := by
  decide

/-- C3 amended: on an I1 lineage, `getEntityHistory` started from the node
at position `k` returns exactly that node and its predecessor versions
(the rows at positions `0 … k`), with no duplicates, sorted by
`valid_from` descending; in particular, started from the lineage head it
returns every row of the lineage. -/
theorem getEntityHistory_spec (chain : List Row) (hlin : IsLineage chain)
    (k : Nat) (hk : k < chain.length) (fuel : Nat) (hfuel : k + 1 ≤ fuel) :
    (getEntityHistory chain fuel ((chain.get ⟨k, hk⟩).id)).Perm (chain.take (k + 1))
    ∧ (getEntityHistory chain fuel ((chain.get ⟨k, hk⟩).id)).Nodup
    ∧ List.Sorted validFromDesc (getEntityHistory chain fuel ((chain.get ⟨k, hk⟩).id))
    ∧ (k = chain.length - 1 →
        (getEntityHistory chain fuel ((chain.get ⟨k, hk⟩).id)).Perm chain) := by
  have hwalk := historyWalk_lineage chain hlin k hk fuel hfuel
  have hperm : (getEntityHistory chain fuel ((chain.get ⟨k, hk⟩).id)).Perm
      (chain.take (k + 1)) := by
    unfold getEntityHistory
    rw [hwalk]
    exact (List.perm_insertionSort validFromDesc _).trans ((chain.take (k + 1)).reverse_perm)
  have hnodup : (getEntityHistory chain fuel ((chain.get ⟨k, hk⟩).id)).Nodup := by
    refine hperm.nodup_iff.mpr ?_
    exact (List.take_sublist (k + 1) chain).nodup (hlin.2.of_map Row.id)
  refine ⟨hperm, hnodup, ?_, ?_⟩
  · unfold getEntityHistory
    exact List.sorted_insertionSort validFromDesc _
  · intro hlast
    have hlen : k + 1 = chain.length := by omega
    rw [hlen, List.take_length] at hperm
    exact hperm

/-- Witness for C3 (amended): started from the head `B` of the two-row
lineage, the history is a permutation of the whole lineage, duplicate-free
and sorted by `valid_from` descending. -/
theorem getEntityHistory_spec_witness :
    (getEntityHistory lineTable 10 ((lineTable.get ⟨1, by decide⟩).id)).Perm
      (lineTable.take 2)
    ∧ (getEntityHistory lineTable 10 ((lineTable.get ⟨1, by decide⟩).id)).Nodup
    ∧ List.Sorted validFromDesc
        (getEntityHistory lineTable 10 ((lineTable.get ⟨1, by decide⟩).id))
    ∧ (1 = lineTable.length - 1 →
        (getEntityHistory lineTable 10 ((lineTable.get ⟨1, by decide⟩).id)).Perm
          lineTable) :=
  getEntityHistory_spec lineTable (by decide) 1 (by decide) 10 (by decide)

/-- On an I1 lineage the forward predicate lookup from position `k` finds
exactly the row at position `k + 1`, and nothing when `k` is the last
position. -/
theorem lookupSuccessor_get (chain : List Row) (hlin : IsLineage chain)
    (k : Nat) (hk : k < chain.length) :
    lookupSuccessor chain ((chain.get ⟨k, hk⟩).id)
      = if h : k + 1 < chain.length then some (chain.get ⟨k + 1, h⟩) else none := by
  obtain ⟨hlink, hnod⟩ := hlin
  have hnomatch : ∀ (j : Nat) (hj : j < chain.length), j ≠ k + 1 →
      ((chain.get ⟨j, hj⟩).previousVersionId
        == some ((chain.get ⟨k, hk⟩).id)) = false := by
    intro j hj hne
    cases j with
    | zero =>
      rw [linkedFrom_zero none chain hlink hj]
      rfl
    | succ m =>
      rw [linkedFrom_succ none chain hlink m hj]
      refine beq_eq_false_iff_ne.mpr (fun he => ?_)
      have hmk : m = k :=
        id_inj chain hnod (Nat.lt_of_succ_lt hj) hk (Option.some.injEq _ _ ▸ he)
      exact hne (by omega)
  by_cases h : k + 1 < chain.length
  · rw [dif_pos h]
    apply find?_eq_get_of_first _ _ (k + 1) h
    · rw [linkedFrom_succ none chain hlink k h]
      simp
    · intro j hj
      exact hnomatch j (Nat.lt_trans hj h) (by omega)
  · rw [dif_neg h]
    unfold lookupSuccessor
    rw [List.find?_eq_none]
    intro x hx
    obtain ⟨⟨j, hj⟩, rfl⟩ := List.mem_iff_get.mp hx
    intro hpr
    exact absurd hpr (by simpa using hnomatch j hj (by omega))

/-- On an I1 lineage none of whose non-last rows is current, the forward
walk reaches the last row from every starting position, whatever that last
row's `is_current` flag says. -/
theorem getCurrentVersionFuel_head (chain : List Row) (hlin : IsLineage chain)
    (hnc : ∀ (j : Nat) (hj : j < chain.length - 1),
        (chain.get ⟨j, Nat.lt_of_lt_of_le hj (Nat.sub_le _ _)⟩).isCurrent = false) :
    ∀ (fuel k : Nat) (hk : k < chain.length), chain.length - k ≤ fuel →
      getCurrentVersionFuel chain fuel ((chain.get ⟨k, hk⟩).id)
        = some (chain.get ⟨chain.length - 1, by omega⟩) := by
  intro fuel
  induction fuel with
  | zero => intro k hk hf; exact absurd hf (by omega)
  | succ f ih =>
    intro k hk hf
    have hl := lookupRowById_get chain hlin.2 k hk
    by_cases hlast : k = chain.length - 1
    · subst hlast
      cases hc : (chain.get ⟨chain.length - 1, hk⟩).isCurrent with
      | true => simp only [getCurrentVersionFuel, hl, hc, if_true]
      | false =>
        have hsucc : lookupSuccessor chain
            ((chain.get ⟨chain.length - 1, hk⟩).id) = none := by
          rw [lookupSuccessor_get chain hlin (chain.length - 1) hk]
          rw [dif_neg (by omega)]
        simp only [getCurrentVersionFuel, hl, hsucc, hc]
        simp
    · have hk1 : k + 1 < chain.length := by omega
      have hc : (chain.get ⟨k, hk⟩).isCurrent = false := hnc k (by omega)
      have hsucc : lookupSuccessor chain ((chain.get ⟨k, hk⟩).id)
          = some (chain.get ⟨k + 1, hk1⟩) := by
        rw [lookupSuccessor_get chain hlin k hk, dif_pos hk1]
      simp only [getCurrentVersionFuel, hl, hc, hsucc]
      simp only [Bool.false_eq_true, if_false]
      exact ih (k + 1) hk1 (by omega)

/-- C7: `getCurrentVersion` resolves the head as the spec describes: a
missing starting row yields not-found; a current row is returned as soon as
it is examined; otherwise the walk advances to the row whose
`previous_version_id` equals the candidate's id; with no such successor the
candidate itself is returned even when its `is_current` flag is false — so
on an I1-shaped chain whose non-last rows are all non-current, the walk
lands on the chain's last row from any starting node. -/
theorem getCurrentVersion_spec :
    (∀ (tbl : List Row) (sid : String) (fuel : Nat),
        lookupRowById tbl sid = none →
        getCurrentVersionFuel tbl (fuel + 1) sid = none)
    ∧ (∀ (tbl : List Row) (sid : String) (fuel : Nat) (r : Row),
        lookupRowById tbl sid = some r → r.isCurrent = true →
        getCurrentVersionFuel tbl (fuel + 1) sid = some r)
    ∧ (∀ (tbl : List Row) (sid : String) (fuel : Nat) (r : Row),
        lookupRowById tbl sid = some r → r.isCurrent = false →
        lookupSuccessor tbl sid = none →
        getCurrentVersionFuel tbl (fuel + 1) sid = some r)
    ∧ (∀ (tbl : List Row) (sid : String) (fuel : Nat) (r s : Row),
        lookupRowById tbl sid = some r → r.isCurrent = false →
        lookupSuccessor tbl sid = some s →
        getCurrentVersionFuel tbl (fuel + 1) sid
          = getCurrentVersionFuel tbl fuel s.id)
    ∧ (∀ (chain : List Row), IsLineage chain →
        (∀ r ∈ chain.dropLast, r.isCurrent = false) →
        ∀ (fuel k : Nat) (hk : k < chain.length), chain.length ≤ fuel →
          getCurrentVersionFuel chain fuel ((chain.get ⟨k, hk⟩).id)
            = some (chain.getLast (List.ne_nil_of_length_pos (by omega)))) := by
  refine ⟨?_, ?_, ?_, ?_, ?_⟩
  · intro tbl sid fuel h
    simp only [getCurrentVersionFuel, h]
  · intro tbl sid fuel r h hc
    simp only [getCurrentVersionFuel, h, hc, if_true]
  · intro tbl sid fuel r h hc hs
    simp only [getCurrentVersionFuel, h, hc, hs]
    simp
  · intro tbl sid fuel r s h hc hs
    simp only [getCurrentVersionFuel, h, hc, hs]
    simp
  · intro chain hlin hmem fuel k hk hfuel
    have hnc : ∀ (j : Nat) (hj : j < chain.length - 1),
        (chain.get ⟨j, Nat.lt_of_lt_of_le hj (Nat.sub_le _ _)⟩).isCurrent = false := by
      intro j hj
      apply hmem
      have hjt : j < chain.dropLast.length := by
        simp only [List.length_dropLast]
        omega
      have hdl : chain.dropLast.get ⟨j, hjt⟩
          = chain.get ⟨j, Nat.lt_of_lt_of_le hj (Nat.sub_le _ _)⟩ := by
        simp [List.get_eq_getElem, List.getElem_dropLast]
      rw [← hdl]
      exact List.get_mem _ _ _
    have hres := getCurrentVersionFuel_head chain hlin hnc fuel k hk (by omega)
    rw [hres]
    congr 1
    rw [List.getLast_eq_getElem]
    simp [List.get_eq_getElem]

/-- Root of an inconsistent two-row chain in which even the head lost its
`is_current` flag. -/
def staleRowA : Row :=
  { id := "sA", organizationId := none, fields := [("name", "v1")],
    previousVersionId := none, validFrom := 1, validTo := some 2,
    isCurrent := false, createdAt := 1, updatedAt := 2 }

/-- Head of the inconsistent chain: back-links to `sA` but is itself marked
not current. -/
def staleRowB : Row :=
  { id := "sB", organizationId := none, fields := [("name", "v2")],
    previousVersionId := some "sA", validFrom := 2, validTo := some 3,
    isCurrent := false, createdAt := 1, updatedAt := 3 }

/-- The inconsistent chain `sA ← sB` as a table. -/
def staleTable : List Row := [staleRowA, staleRowB]

/-- Witness for C7: started from the retired root of `staleTable`, the walk
advances forward and returns the successor-less head `sB` even though its
`is_current` flag is false. -/
theorem getCurrentVersion_spec_witness :
    getCurrentVersionFuel staleTable 5 ((staleTable.get ⟨0, by decide⟩).id)
      = some (staleTable.getLast (List.ne_nil_of_length_pos (by decide))) :=
  getCurrentVersion_spec.2.2.2.2 staleTable (by decide) (by decide) 5 0
    (by decide) (by decide)
